import Mathlib

/-!
Verification of the link-crawling pipeline shared by the two Atlassian
crawler scripts (`src/atlassian/jiralinks.py` and
`src/atlassian/confluencelinks.py`).

Python strings are modelled as `List Char` (`PyStr`) where character-level
operations matter, and as `String` elsewhere.  JSON-decoded API payloads are
modelled by the inductive type `Json` (strings, objects with ordered unique
keys, arrays, and `null` standing for Python `None` and other scalars the
scripts never inspect).  Where the Python code would raise a `TypeError` on a
value of an unexpected dynamic type (for instance a non-string `"text"` entry,
over which `extracted_text += content["text"]` would fail), the corresponding
clause of the model is a no-op; every claim below is settled on inputs on
which the script returns normally, where the model and the script agree.
-/

/-- Python `str.strip()` whitespace class, restricted to the ASCII whitespace
characters that can occur in the scripts' inputs. -/
def pyIsSpace (c : Char) : Bool :=
  c = ' ' || c = '\t' || c = '\n' || c = '\r' || c = '\x0b' || c = '\x0c'

/-- A Python string viewed as a list of characters. -/
abbrev PyStr := List Char

/-- Strip leading whitespace (the left half of Python `str.strip()`). -/
def lstrip (l : PyStr) : PyStr := l.dropWhile pyIsSpace

/-- Strip trailing whitespace (the right half of Python `str.strip()`). -/
def rstrip (l : PyStr) : PyStr := (l.reverse.dropWhile pyIsSpace).reverse

/-- Python `str.strip()`: drop whitespace from both ends. -/
def pyStrip (l : PyStr) : PyStr := lstrip (rstrip l)

/-- The test `leadsWith pat l` holds when `pat` is an initial segment of `l`
(Python `str.startswith` on character lists). -/
def leadsWith : List Char → List Char → Bool
  | [], _ => true
  | _ :: _, [] => false
  | p :: ps, c :: cs => p == c && leadsWith ps cs

/-- Python's `sub in s` substring test on character lists. -/
def containsSeq (pat : List Char) : List Char → Bool
  | [] => pat.isEmpty
  | c :: cs => leadsWith pat (c :: cs) || containsSeq pat cs

/-- Python `s.startswith(pre)` on `String`s. -/
def pyStartsWith (s pre : String) : Bool := leadsWith pre.data s.data

/-- JSON-decoded values as the scripts see them.  Objects keep the (ordered,
duplicate-free) key/value pairs of a Python `dict`; `null` stands for `None`
and for scalars the scripts never destructure. -/
inductive Json where
  | str : String → Json
  | null : Json
  | obj : List (String × Json) → Json
  | arr : List Json → Json

/-- Python truthiness (`if value:`) for the modelled JSON values. -/
def pyTruthy : Json → Bool
  | .str s => !s.isEmpty
  | .null => false
  | .obj fs => !fs.isEmpty
  | .arr l => !l.isEmpty

/-- The string rendered into a report row for a field expected to be textual;
claims only ever evaluate it on strings. -/
def jsonRowText : Json → String
  | .str s => s
  | _ => ""

/-- Source `jiralinks.py` line 119-120: `if "text" in content: extracted_text +=
content["text"] + " "` — the contribution of the node's own `text` field. -/
def textPart (fields : List (String × Json)) : PyStr :=
  match fields.lookup "text" with
  | some (.str s) => s.data ++ [' ']
  | _ => []

/-- Source `jiralinks.py` lines 121-122: the URL appended when the node is an
`inlineCard` whose `attrs` carry a `url`. -/
def cardLinks (fields : List (String × Json)) : List String :=
  match fields.lookup "type" with
  | some (.str t) =>
      if t = "inlineCard" then
        match fields.lookup "attrs" with
        | some (.obj a) =>
            match a.lookup "url" with
            | some (.str u) => [u]
            | _ => []
        | _ => []
      else []
  | _ => []

/-- Concatenate a list of link lists in order. -/
def linksConcat : List (List String) → List String
  | [] => []
  | x :: rest => x ++ linksConcat rest

/-- Source `jiralinks.py` lines 125-127: the `href` contributed by one entry of a
node's `marks` list when it is a mark of type `"link"`. -/
def markLinkOf : Json → List String
  | .obj mf =>
      (match mf.lookup "type" with
       | some (.str t) =>
           if t = "link" then
             match mf.lookup "attrs" with
             | some (.obj ma) =>
                 match ma.lookup "href" with
                 | some (.str h) => [h]
                 | _ => []
             | _ => []
           else []
       | _ => [])
  | _ => []

/-- Source `jiralinks.py` lines 124-127: all link-mark `href`s of a node. -/
def markLinks (fields : List (String × Json)) : List String :=
  match fields.lookup "marks" with
  | some (.arr ms) => linksConcat (ms.map markLinkOf)
  | _ => []

mutual

/-- Source `jiralinks.py` lines 109-134, `extract_text_and_links`: walk a content
node, returning the accumulated text (finally `.strip()`-ed, as in line 134)
and the collected links.  The `dict` branch processes the `content` children,
then the node's own `text`, then an `inlineCard` URL, then the link marks, in
the source's order. -/
def extract_text_and_links : Json → PyStr × List String
  | .obj fields =>
      (pyStrip ((contentPart fields).1 ++ textPart fields),
       (contentPart fields).2 ++ cardLinks fields ++ markLinks fields)
  | .arr items => (pyStrip (extractList items).1, (extractList items).2)
  | .str _ => ([], [])
  | .null => ([], [])

/-- Source `jiralinks.py` line 114: `if "content" in content and
isinstance(content["content"], list)` — locate the (unique) `content` entry
and recurse into it when it is a list. -/
def contentPart : List (String × Json) → PyStr × List String
  | [] => ([], [])
  | (k, v) :: rest =>
      if k = "content" then
        match v with
        | .arr items => extractList items
        | _ => ([], [])
      else contentPart rest

/-- Source `jiralinks.py` lines 115-118 and 129-132: the loop body shared by the
`content`-children walk and the list-node walk; every child's text is appended
with a trailing `" "` and its links are appended in order. -/
def extractList : List Json → PyStr × List String
  | [] => ([], [])
  | j :: rest =>
      ((extract_text_and_links j).1 ++ ' ' :: (extractList rest).1,
       (extract_text_and_links j).2 ++ (extractList rest).2)

end

/-- Drop the literal `pat` from the front of `l`, if present. -/
def dropLit (pat l : List Char) : Option (List Char) :=
  if leadsWith pat l then some (l.drop pat.length) else none

/-- The greedy `[^\s]+` tail of a URL match: at least one non-whitespace
character, extended maximally. -/
def urlTail (pre : List Char) (r : List Char) : Option (String × List Char) :=
  let run := r.takeWhile (fun c => !pyIsSpace c)
  if run.isEmpty then none
  else some (String.mk (pre ++ run), r.drop run.length)

/-- One anchored match of `jiralinks.py`'s generic URL pattern
`https?://[^\s]+` (line 155): the greedy `s?` tries `https://` first. -/
def matchUrlAt (l : List Char) : Option (String × List Char) :=
  match dropLit "https://".data l with
  | some r => urlTail "https://".data r
  | none =>
      match dropLit "http://".data l with
      | some r => urlTail "http://".data r
      | none => none

/-- The `re.findall` scan for the generic URL pattern: leftmost, non-overlapping,
resuming after each match.  The fuel argument strictly exceeds the length of
the scanned text, so it never runs out. -/
def scanUrls : Nat → List Char → List String
  | 0, _ => []
  | _ + 1, [] => []
  | fuel + 1, c :: rest =>
      match matchUrlAt (c :: rest) with
      | some (u, rest') => u :: scanUrls fuel rest'
      | none => scanUrls fuel rest

/-- The call `re.findall(r"https?://[^\s]+", text)` of `jiralinks.py` line 156. -/
def findUrls (text : PyStr) : List String := scanUrls (text.length + 1) text

/-- The domain filter of `jiralinks.py` lines 161 and 166:
`"drive.google.com" in url or "docs.google.com" in url` — a substring test on
the whole URL. -/
def hasMarker (u : String) : Bool :=
  containsSeq "drive.google.com".data u.data || containsSeq "docs.google.com".data u.data

namespace Jira

/-- Source `jiralinks.py` lines 147-169, `extract_google_drive_links`: extract text
and links structurally (or take a plain string as text), scan the text for
URLs, and keep the URLs and structural links that pass the substring-based
domain filter, text matches first. -/
def extract_google_drive_links (x : Json) : List String :=
  let tl : PyStr × List String :=
    match x with
    | .obj _ => extract_text_and_links x
    | .arr _ => extract_text_and_links x
    | .str s => (s.data, [])
    | .null => ([], [])
  (findUrls tl.1).filter hasMarker ++ tl.2.filter hasMarker

/-- Tail of one anchored match of `jiralinks.py`'s pattern
`https?://(?:drive|docs)\.google\.com/\S+` (line 48), after the domain
alternative: the literal `.google.com/` followed by at least one
non-whitespace character. -/
def hardTailSlash (r : List Char) : Bool :=
  match dropLit ".google.com/".data r with
  | some r3 => !(r3.takeWhile (fun c => !pyIsSpace c)).isEmpty
  | none => false

/-- The `(?:drive|docs)` alternative of the pattern, tried in the regex's
order (the two literals can never both apply at one position). -/
def hardDomTail (r : List Char) : Bool :=
  match dropLit "drive".data r with
  | some r2 => hardTailSlash r2
  | none =>
      match dropLit "docs".data r with
      | some r2 => hardTailSlash r2
      | none => false

/-- Anchored test of the issue-tracker hard-link pattern at one position. -/
def matchHardAt (l : List Char) : Bool :=
  match dropLit "https://".data l with
  | some r => hardDomTail r
  | none =>
      match dropLit "http://".data l with
      | some r => hardDomTail r
      | none => false

/-- The test `re.search(GOOGLE_DRIVE_HARDLINK_REGEX, link)` of `jiralinks.py` line 244
as a Boolean: does the pattern match at any position? -/
def searchHard : List Char → Bool
  | [] => false
  | c :: rest => matchHardAt (c :: rest) || searchHard rest

/-- The remote-link test applied to each URL returned by the per-issue
remote-link lookup (`jiralinks.py` lines 241-248). -/
def remoteLinkMatches (link : String) : Bool := searchHard link.data

end Jira

namespace Confluence

/-- Tail of one anchored match of `confluencelinks.py`'s pattern
`https?://(?:drive|docs)\.google\.com\S+` (line 66) after the scheme and the
domain alternative: the literal `.google.com` followed greedily by at least
one non-whitespace character.  Returns the full match and the rest of the
input. -/
def hardTail (pre : List Char) (r2 : List Char) : Option (String × List Char) :=
  match dropLit ".google.com".data r2 with
  | some r3 =>
      if (r3.takeWhile (fun c => !pyIsSpace c)).isEmpty then none
      else some (String.mk (pre ++ ".google.com".data ++ r3.takeWhile (fun c => !pyIsSpace c)),
        r3.drop (r3.takeWhile (fun c => !pyIsSpace c)).length)
  | none => none

/-- The `(?:drive|docs)` alternative of the wiki hard-link pattern. -/
def hardDom (pre : List Char) (r : List Char) : Option (String × List Char) :=
  match dropLit "drive".data r with
  | some r2 => hardTail (pre ++ "drive".data) r2
  | none =>
      match dropLit "docs".data r with
      | some r2 => hardTail (pre ++ "docs".data) r2
      | none => none

/-- Anchored match of the wiki hard-link pattern at one position. -/
def matchHardAt (l : List Char) : Option (String × List Char) :=
  match dropLit "https://".data l with
  | some r => hardDom "https://".data r
  | none =>
      match dropLit "http://".data l with
      | some r => hardDom "http://".data r
      | none => none

/-- The `re.findall` scan for the wiki hard-link pattern (leftmost,
non-overlapping).  Fuel strictly exceeds the text length. -/
def scanHard : Nat → List Char → List String
  | 0, _ => []
  | _ + 1, [] => []
  | fuel + 1, c :: rest =>
      match matchHardAt (c :: rest) with
      | some (u, rest') => u :: scanHard fuel rest'
      | none => scanHard fuel rest

/-- The call `re.findall(GOOGLE_DRIVE_HARDLINK_REGEX, page_content)` of
`confluencelinks.py` line 155. -/
def findHardLinks (s : String) : List String := scanHard (s.data.length + 1) s.data

/-- Backtracking driver for a greedy `[^x]*` gap: try the continuation on the
suffix obtained by consuming `n` gap characters, for `n` from the maximal gap
length down to `0`, returning the first success (exactly a regex engine's
greedy-star backtracking order). -/
def tryDrops (k : List Char → Option (String × List Char)) (l : List Char) :
    Nat → Option (String × List Char)
  | 0 => k l
  | n + 1 =>
      match k (l.drop (n + 1)) with
      | some r => some r
      | none => tryDrops k l n

/-- Length of the maximal `[^>]*` gap at the front of `l`. -/
def nonGtRun (l : List Char) : Nat := (l.takeWhile (fun c => !(c == '>'))).length

/-- The capturing part `([^"]*drive\.google\.com[^"]*)"` of
`GOOGLE_DRIVE_SMARTLINK_REGEX` (`confluencelinks.py` line 67): the capture is
the maximal quote-free run, accepted when it contains `drive.google.com` and
is followed by a closing quote. -/
def captureTail (l : List Char) : Option (String × List Char) :=
  if containsSeq "drive.google.com".data (l.takeWhile (fun c => !(c == '"'))) then
    match l.drop (l.takeWhile (fun c => !(c == '"'))).length with
    | '"' :: rest => some (String.mk (l.takeWhile (fun c => !(c == '"'))), rest)
    | _ => none
  else none

/-- After the second `[^>]*` gap: the literal `data-card-url="` and then the
capturing part. -/
def smartAfterName (l : List Char) : Option (String × List Char) :=
  match dropLit "data-card-url=\"".data l with
  | some r => captureTail r
  | none => none

/-- After the first `[^>]*` gap: the literal `ac:name="inline-card"`, a
second greedy `[^>]*` gap, and the rest of the pattern. -/
def smartAfterOpen (l : List Char) : Option (String × List Char) :=
  match dropLit "ac:name=\"inline-card\"".data l with
  | some r => tryDrops smartAfterName r (nonGtRun r)
  | none => none

/-- Anchored match of `GOOGLE_DRIVE_SMARTLINK_REGEX` at one position:
the literal `<ac:structured-macro`, a greedy `[^>]*` gap, and the rest;
returns the captured group and the input following the full match. -/
def matchSmartAt (l : List Char) : Option (String × List Char) :=
  match dropLit "<ac:structured-macro".data l with
  | some r => tryDrops smartAfterOpen r (nonGtRun r)
  | none => none

/-- The `re.findall` scan for the smart-link pattern; `findall` returns the
capturing group of each non-overlapping match. -/
def scanSmart : Nat → List Char → List String
  | 0, _ => []
  | _ + 1, [] => []
  | fuel + 1, c :: rest =>
      match matchSmartAt (c :: rest) with
      | some (u, rest') => u :: scanSmart fuel rest'
      | none => scanSmart fuel rest

/-- The call `re.findall(GOOGLE_DRIVE_SMARTLINK_REGEX, page_content)` of
`confluencelinks.py` line 156. -/
def findSmartLinks (s : String) : List String := scanSmart (s.data.length + 1) s.data

/-- Source `confluencelinks.py` lines 154-164, `extract_google_drive_links`: all
plain-text pattern matches labelled `"Hardcoded"`, then all markup-embed
captures labelled `"Smart Link"`. -/
def extract_google_drive_links (page_content : String) : List (String × String) :=
  (findHardLinks page_content).map (fun l => (l, "Hardcoded"))
    ++ (findSmartLinks page_content).map (fun l => (l, "Smart Link"))

end Confluence

/-- One page of a cursor-paginated wiki API response: the `results` list and
the optional `_links.next` cursor. -/
structure ApiPage (R : Type) where
  results : List R
  next : Option String

/-- Source `confluencelinks.py` lines 91-104 (`get_all_spaces`) and 135-148
(`get_all_pages`) share this cursor-style loop verbatim: while there is a
URL, fetch it; a fetch failure breaks out of the loop keeping the records
accumulated so far; an empty `results` list returns the empty list
immediately (discarding the accumulator); otherwise the results are
accumulated and the `_links.next` cursor, prefixed with the base URL, drives
the next iteration.  A fetch is modelled as `Except`, a raised exception
being `Except.error`; the fuel argument is chosen larger than any page
sequence under consideration. -/
def cursorLoop {R : Type} (fetch : String → Except Unit (ApiPage R)) (base : String) :
    Nat → Option String → List R → List R
  | _, none, acc => acc
  | 0, some _, acc => acc
  | fuel + 1, some url, acc =>
      match fetch url with
      | .error _ => acc
      | .ok page =>
          if page.results.isEmpty then []
          else
            match page.next with
            | none => acc ++ page.results
            | some n => cursorLoop fetch base fuel (some (base ++ n)) (acc ++ page.results)

/-- Entry point of the wiki pagination loops: start at the seed URL with an
empty accumulator. -/
def getAllCursor {R : Type} (fetch : String → Except Unit (ApiPage R)) (base : String)
    (fuel : Nat) (url : String) : List R :=
  cursorLoop fetch base fuel (some url) []

/-- Source `jiralinks.py` lines 69-95, `get_all_issues`: offset-style pagination
with `maxResults = 100`; each iteration fetches the batch at `startAt`,
appends it, and stops on a short batch.  There is no `try`/`except` in this
loop, so a fetch failure (an `Except.error`) propagates to the caller. -/
def offsetLoop {I : Type} (fetch : Nat → Except Unit (List I)) :
    Nat → Nat → List I → Except Unit (List I)
  | 0, _, acc => .ok acc
  | fuel + 1, startAt, acc =>
      match fetch startAt with
      | .error e => .error e
      | .ok batch =>
          if batch.length < 100 then .ok (acc ++ batch)
          else offsetLoop fetch fuel (startAt + 100) (acc ++ batch)

/-- Entry point of the issue pagination loop (`start_at = 0`, empty
accumulator). -/
def getAllIssues {I : Type} (fetch : Nat → Except Unit (List I)) (fuel : Nat) :
    Except Unit (List I) :=
  offsetLoop fetch fuel 0 []

/-- Modelled from the spec: the retry decorator applied to
`confluence_request` / `jira_request` comes from the external `tenacity`
library, which is not part of this repository; only its configuration
(`stop_after_attempt(5)`, `wait_exponential(multiplier=1, min=2, max=10)`)
is repository code.  Per the spec's retry policy, the wait before the next
attempt after the `n`-th failure is exponential with base 2, floored at 2 and
capped at 10 time-units. -/
def retryWait (attempt : Nat) : Nat := max 2 (min (2 ^ attempt) 10)

/-- The outcome of driving a fallible request through the retry policy:
the final result, the backoff waits performed between attempts, and the
number of attempts made. -/
structure RetryOutcome (E A : Type) where
  result : Except E A
  waits : List Nat
  attempts : Nat

/-- Modelled from the spec: the retry driver (`tenacity`'s decorated call,
not in this repository) runs the request, returns a success immediately,
and on failure either gives up (no retries left) letting the failure
propagate, or waits `retryWait attempt` and tries again. -/
def retryLoop {E A : Type} (f : Nat → Except E A) : Nat → Nat → RetryOutcome E A
  | attempt, retriesLeft =>
      match f attempt with
      | .ok a => ⟨.ok a, [], 1⟩
      | .error e =>
          match retriesLeft with
          | 0 => ⟨.error e, [], 1⟩
          | r + 1 =>
              let nxt := retryLoop f (attempt + 1) r
              ⟨nxt.result, retryWait attempt :: nxt.waits, nxt.attempts + 1⟩

/-- Modelled from the spec: `stop_after_attempt(5)` allows 5 attempts total,
that is 4 retries after the first attempt. -/
def runWithRetry {E A : Type} (f : Nat → Except E A) : RetryOutcome E A :=
  retryLoop f 1 4

/-- Source `confluencelinks.py` lines 183-205: the per-page loop of
`process_confluence`.  The per-page body (reading `body.storage.value`,
extracting links, building the per-link rows) is abstracted as `handle`; the
loop appends its rows on success and, when it raises, appends the sentinel
row `[space_key, page_title, "ERROR", "N/A", str(e), "N/A"]` of line 205 and
continues with the next page. -/
def processPagesLoop (spaceKey : String)
    (handle : String → Except String (List (List String))) :
    List String → List (List String)
  | [] => []
  | title :: rest =>
      (match handle title with
       | .ok rows => rows
       | .error e => [[spaceKey, title, "ERROR", "N/A", e, "N/A"]])
        ++ processPagesLoop spaceKey handle rest

/-- Source `jiralinks.py` lines 191-248: the per-issue loop of `process_jira`, with
the per-issue body abstracted as `handle`.  The loop has no `try`/`except`,
so the first failure propagates and the rows of every issue are lost. -/
def processIssuesLoop (handle : String → Except String (List (List String))) :
    List String → Except String (List (List String))
  | [] => .ok []
  | key :: rest =>
      match handle key with
      | .error e => .error e
      | .ok rows =>
          match processIssuesLoop handle rest with
          | .error e => .error e
          | .ok more => .ok (rows ++ more)

/-- An issue as consumed by the per-issue body: its key and its `fields`
object. -/
structure IssueRec where
  key : String
  fields : List (String × Json)

/-- The lookup `issue["fields"].get("comment", {}).get("comments", [])` of
`jiralinks.py` line 195. -/
def commentBodiesOf (fields : List (String × Json)) : List Json :=
  match fields.lookup "comment" with
  | some (.obj c) =>
      match c.lookup "comments" with
      | some (.arr cs) => cs
      | _ => []
  | _ => []

/-- Build one report row per matched link, stamped with the caller-chosen
`Source` label (`jiralinks.py` lines 202-235). -/
def rowsFor (projectKey issueKey summary source : String) (links : List String) :
    List (List String) :=
  links.map (fun l => [projectKey, issueKey, summary, l, source])

/-- Source `jiralinks.py` lines 213-218: one row batch per comment, labelled
`Comment i+1` with `i` the 0-based position. -/
def commentRows (pk ik ss : String) : Nat → List Json → List (List String)
  | _, [] => []
  | i, c :: rest =>
      let body :=
        match c with
        | .obj cf => (cf.lookup "body").getD (.obj [])
        | _ => .obj []
      rowsFor pk ik ss ("Comment " ++ toString (i + 1)) (Jira.extract_google_drive_links body)
        ++ commentRows pk ik ss (i + 1) rest

/-- Source `jiralinks.py` lines 221-227: scan every field whose name starts with
`customfield_`, in field order. -/
def customFieldRows (pk ik ss : String) : List (String × Json) → List (List String)
  | [] => []
  | (name, value) :: rest =>
      (if pyStartsWith name "customfield_" then
        rowsFor pk ik ss ("Field: " ++ name) (Jira.extract_google_drive_links value)
      else [])
        ++ customFieldRows pk ik ss rest

/-- Source `jiralinks.py` lines 230-235: the environment field contributes only when
truthy. -/
def environmentRows (pk ik ss : String) (fields : List (String × Json)) :
    List (List String) :=
  match fields.lookup "environment" with
  | some v =>
      if pyTruthy v then rowsFor pk ik ss "Environment" (Jira.extract_google_drive_links v)
      else []
  | none => []

/-- Source `jiralinks.py` lines 241-248: each remote link is kept as a
`"Remote Link"` row exactly when `re.search(GOOGLE_DRIVE_HARDLINK_REGEX, link)`
matches; non-matching remote links produce nothing. -/
def remoteLinkRows (pk ik ss : String) : List String → List (List String)
  | [] => []
  | l :: rest =>
      (if Jira.remoteLinkMatches l then [[pk, ik, ss, l, "Remote Link"]] else [])
        ++ remoteLinkRows pk ik ss rest

/-- Source `jiralinks.py` lines 191-248: the full per-issue body of `process_jira`
for one issue, given the remote links returned by the separate per-issue
lookup.  Summary defaults to `"N/A"`, description to `{}`; the row batches
are emitted in the source's order: Summary, Description, Comments, custom
fields, Environment, Remote Links. -/
def processIssue (projectKey : String) (issue : IssueRec) (remoteLinks : List String) :
    List (List String) :=
  let summary := (issue.fields.lookup "summary").getD (.str "N/A")
  let ss := jsonRowText summary
  let description := (issue.fields.lookup "description").getD (.obj [])
  rowsFor projectKey issue.key ss "Summary" (Jira.extract_google_drive_links summary)
    ++ rowsFor projectKey issue.key ss "Description" (Jira.extract_google_drive_links description)
    ++ commentRows projectKey issue.key ss 0 (commentBodiesOf issue.fields)
    ++ customFieldRows projectKey issue.key ss issue.fields
    ++ environmentRows projectKey issue.key ss issue.fields
    ++ remoteLinkRows projectKey issue.key ss remoteLinks

/-- Concatenate character lists separated by a single space (the claim's
"concatenation … separated by a single space"). -/
def joinSpace : List PyStr → PyStr
  | [] => []
  | [x] => x
  | x :: y :: rest => x ++ ' ' :: joinSpace (y :: rest)

/-- Each element followed by a trailing space — the shape the source's
accumulation loop actually produces. -/
def concatSp : List PyStr → PyStr
  | [] => []
  | x :: rest => x ++ ' ' :: concatSp rest

/-- Concatenation of a list of lists (used to flatten a regrouped `content`
list back to the original children). -/
def concatL {α : Type} : List (List α) → List α
  | [] => []
  | x :: rest => x ++ concatL rest

/-- The recursively extracted texts of the children in a node's `content`
list, in document order (claim C1's wording). -/
def specChildTexts (fields : List (String × Json)) : List PyStr :=
  match fields.lookup "content" with
  | some (.arr items) => items.map (fun c => (extract_text_and_links c).1)
  | _ => []

/-- The node's own `text` field, if present (claim C1's wording). -/
def specOwnText (fields : List (String × Json)) : List PyStr :=
  match fields.lookup "text" with
  | some (.str s) => [s.data]
  | _ => []

/-- Stated from claim C1's words, for comparison with the source: the text of
a node is the children's recursively extracted texts joined by single spaces,
followed by the node's own `text` field; a list yields its elements' texts
joined likewise; anything else yields empty text. -/
def claimText : Json → PyStr
  | .obj fields => joinSpace (specChildTexts fields ++ specOwnText fields)
  | .arr items => joinSpace (items.map (fun c => (extract_text_and_links c).1))
  | _ => []

/-- The amended form of claim C1's text: the same concatenation, finally
stripped of leading and trailing whitespace (the source applies `.strip()` to
every recursive result). -/
def claimTextStripped (j : Json) : PyStr := pyStrip (claimText j)

/-- Stated from claim C1's words: the links of a node are the concatenation
of the children's link lists, then the `inlineCard` URL, then the link-mark
`href`s; a list yields its elements' links; anything else yields none. -/
def claimLinks : Json → List String
  | .obj fields =>
      (match fields.lookup "content" with
       | some (.arr items) => linksConcat (items.map (fun c => (extract_text_and_links c).2))
       | _ => [])
        ++ cardLinks fields ++ markLinks fields
  | .arr items => linksConcat (items.map (fun c => (extract_text_and_links c).2))
  | _ => []

/-- Stated from claim C2's words, for comparison with the source: the host of
a URL is the authority component, i.e. what follows the first `://` (the
whole string when there is none) up to the first `/`, `?`, `#` or `:`. -/
def afterSchemeSep : List Char → Option (List Char)
  | [] => none
  | c :: rest =>
      if leadsWith "://".data (c :: rest) then some ((c :: rest).drop 3)
      else afterSchemeSep rest

/-- The host of a URL, per claim C2's reading ("a URL whose host …"). -/
def hostOf (u : String) : String :=
  let tail := (afterSchemeSep u.data).getD u.data
  String.mk (tail.takeWhile (fun c => !(c == '/') && !(c == '?') && !(c == '#') && !(c == ':')))

/-- Claim C2's host-level domain filter: the host contains one of the two
domain markers. -/
def hostHasMarker (u : String) : Bool := hasMarker (hostOf u)

/-- A nonempty character list with no leading or trailing whitespace (a
fixed point of `pyStrip`). -/
def Clean (l : PyStr) : Prop := pyStrip l = l ∧ l ≠ []


/-! ### Lemmas about Python string stripping -/

lemma pyIsSpace_space : pyIsSpace ' ' = true := rfl

lemma dropWhile_cons_pos {p : Char → Bool} {c : Char} {l : List Char} (h : p c = true) :
    List.dropWhile p (c :: l) = List.dropWhile p l := by
  simp [List.dropWhile, h]

lemma dropWhile_cons_neg {p : Char → Bool} {c : Char} {l : List Char} (h : p c = false) :
    List.dropWhile p (c :: l) = c :: l := by
  simp [List.dropWhile, h]

lemma dropWhile_length_le (p : Char → Bool) (l : List Char) :
    (List.dropWhile p l).length ≤ l.length := by
  induction l with
  | nil => simp
  | cons c t ih =>
      by_cases h : p c = true
      · rw [dropWhile_cons_pos h]
        exact Nat.le_succ_of_le ih
      · rw [dropWhile_cons_neg (by simpa using h)]

lemma dropWhile_eq_self_of_length {p : Char → Bool} {l : List Char}
    (h : (List.dropWhile p l).length = l.length) : List.dropWhile p l = l := by
  induction l with
  | nil => rfl
  | cons c t ih =>
      by_cases hc : p c = true
      · rw [dropWhile_cons_pos hc] at h
        have h2 := dropWhile_length_le p t
        simp [List.length_cons] at h
        omega
      · exact dropWhile_cons_neg (by simpa using hc)

lemma dropWhile_idem (p : Char → Bool) (l : List Char) :
    List.dropWhile p (List.dropWhile p l) = List.dropWhile p l := by
  induction l with
  | nil => rfl
  | cons c t ih =>
      by_cases hc : p c = true
      · rw [dropWhile_cons_pos hc]; exact ih
      · rw [dropWhile_cons_neg (by simpa using hc), dropWhile_cons_neg (by simpa using hc)]

lemma dropWhile_head_neg {p : Char → Bool} {l : List Char} {c : Char} {t : List Char}
    (h : List.dropWhile p l = c :: t) : p c = false := by
  induction l with
  | nil => simp [List.dropWhile] at h
  | cons a s ih =>
      by_cases ha : p a = true
      · rw [dropWhile_cons_pos ha] at h
        exact ih h
      · rw [dropWhile_cons_neg (by simpa using ha)] at h
        cases h
        simpa using ha

lemma dropWhile_suffix (p : Char → Bool) (l : List Char) :
    ∃ pre, l = pre ++ List.dropWhile p l := by
  induction l with
  | nil => exact ⟨[], rfl⟩
  | cons c t ih =>
      by_cases hc : p c = true
      · obtain ⟨pre, hpre⟩ := ih
        exact ⟨c :: pre, by rw [dropWhile_cons_pos hc]; simpa using hpre⟩
      · refine ⟨[], ?_⟩
        rw [dropWhile_cons_neg (by simpa using hc)]
        rfl

lemma lstrip_length_le (l : PyStr) : (lstrip l).length ≤ l.length :=
  dropWhile_length_le pyIsSpace l

lemma rstrip_length_le (l : PyStr) : (rstrip l).length ≤ l.length := by
  unfold rstrip
  simpa using dropWhile_length_le pyIsSpace l.reverse

lemma rstrip_eq_self_of_length {l : PyStr} (h : (rstrip l).length = l.length) :
    rstrip l = l := by
  unfold rstrip at h ⊢
  have h' : (List.dropWhile pyIsSpace l.reverse).length = l.reverse.length := by
    simpa using h
  rw [dropWhile_eq_self_of_length h', List.reverse_reverse]

/-- A fixed point of `pyStrip` is a fixed point of both one-sided strips. -/
lemma strip_fixed_parts {l : PyStr} (h : pyStrip l = l) : lstrip l = l ∧ rstrip l = l := by
  have hlen : (pyStrip l).length = l.length := by rw [h]
  have hr : (rstrip l).length = l.length := by
    have h1 := lstrip_length_le (rstrip l)
    have h2 := rstrip_length_le l
    unfold pyStrip at hlen
    omega
  have hrs := rstrip_eq_self_of_length hr
  refine ⟨?_, hrs⟩
  unfold pyStrip at h
  rwa [hrs] at h

lemma lstrip_head_neg {l : PyStr} {c : Char} {t : PyStr} (h : lstrip l = l)
    (hl : l = c :: t) : pyIsSpace c = false := by
  subst hl
  have h' : List.dropWhile pyIsSpace (c :: t) = c :: t := h
  exact dropWhile_head_neg h'

lemma rstrip_last_neg {l : PyStr} {c : Char} {t : PyStr} (h : rstrip l = l)
    (hl : l.reverse = c :: t) : pyIsSpace c = false := by
  have h' : List.dropWhile pyIsSpace l.reverse = c :: t := by
    have h2 := congrArg List.reverse h
    unfold rstrip at h2
    rw [List.reverse_reverse] at h2
    rw [h2, hl]
  exact dropWhile_head_neg h'

lemma lstrip_of_head_neg {c : Char} {t : PyStr} (h : pyIsSpace c = false) :
    lstrip (c :: t) = c :: t :=
  dropWhile_cons_neg h

lemma rstrip_of_last_neg {l : PyStr} {c : Char} {t : PyStr} (hl : l.reverse = c :: t)
    (h : pyIsSpace c = false) : rstrip l = l := by
  unfold rstrip
  rw [hl, dropWhile_cons_neg h, ← hl, List.reverse_reverse]

lemma rstrip_append_space (l : PyStr) : rstrip (l ++ [' ']) = rstrip l := by
  unfold rstrip
  have h : (l ++ [' ']).reverse = ' ' :: l.reverse := by simp
  rw [h, dropWhile_cons_pos pyIsSpace_space]

lemma pyStrip_append_space (l : PyStr) : pyStrip (l ++ [' ']) = pyStrip l := by
  unfold pyStrip
  rw [rstrip_append_space]

lemma rstrip_idem (l : PyStr) : rstrip (rstrip l) = rstrip l := by
  unfold rstrip
  rw [List.reverse_reverse, dropWhile_idem]

lemma lstrip_idem (l : PyStr) : lstrip (lstrip l) = lstrip l :=
  dropWhile_idem pyIsSpace l

lemma pyStrip_idem (l : PyStr) : pyStrip (pyStrip l) = pyStrip l := by
  unfold pyStrip
  rcases hn : lstrip (rstrip l) with _ | ⟨c, t⟩
  · rfl
  · have hrfix : rstrip (rstrip l) = rstrip l := rstrip_idem l
    obtain ⟨pre, hpre⟩ := dropWhile_suffix pyIsSpace (rstrip l)
    have hsuffix : rstrip l = pre ++ (c :: t) := by
      have hdw : List.dropWhile pyIsSpace (rstrip l) = c :: t := hn
      rw [hpre, hdw]
    rcases hrev : (c :: t).reverse with _ | ⟨d, s⟩
    · simp at hrev
    · have hlast : (rstrip l).reverse = d :: (s ++ pre.reverse) := by
        rw [hsuffix, List.reverse_append, hrev]
        rfl
      have hd : pyIsSpace d = false := rstrip_last_neg hrfix hlast
      have hct : rstrip (c :: t) = c :: t := rstrip_of_last_neg hrev hd
      rw [hct]
      have h2 := lstrip_idem (rstrip l)
      rw [hn] at h2
      exact h2

lemma clean_pyStrip {l : PyStr} (h : pyStrip l ≠ []) : Clean (pyStrip l) :=
  ⟨pyStrip_idem l, h⟩

lemma rstrip_append_of_clean_right {b : PyStr} (hrb : rstrip b = b) (hnb : b ≠ [])
    (u : PyStr) : rstrip (u ++ b) = u ++ b := by
  rcases hbr : b.reverse with _ | ⟨d, s⟩
  · exact absurd (by simpa using hbr) hnb
  · have hd := rstrip_last_neg hrb hbr
    refine @rstrip_of_last_neg (u ++ b) d (s ++ u.reverse) ?_ hd
    rw [List.reverse_append, hbr]
    rfl

/-- Joining two clean strings with a single space yields a clean string. -/
lemma clean_append {a b : PyStr} (ha : Clean a) (hb : Clean b) : Clean (a ++ ' ' :: b) := by
  obtain ⟨hsa, hna⟩ := ha
  obtain ⟨hsb, hnb⟩ := hb
  obtain ⟨hla, _⟩ := strip_fixed_parts hsa
  obtain ⟨_, hrb⟩ := strip_fixed_parts hsb
  rcases hac : a with _ | ⟨x, a'⟩
  · exact absurd hac hna
  have hx : pyIsSpace x = false := lstrip_head_neg hla hac
  constructor
  · unfold pyStrip
    have hrs : rstrip (a ++ ' ' :: b) = a ++ ' ' :: b := by
      have hsplit : a ++ ' ' :: b = (a ++ [' ']) ++ b := by simp
      rw [hsplit]
      exact rstrip_append_of_clean_right hrb hnb (a ++ [' '])
    rw [hac] at hrs
    rw [hrs]
    exact lstrip_of_head_neg hx
  · simp

/-! ### Unfolding lemmas for the extractor -/

lemma extractList_fst (items : List Json) :
    (extractList items).1 = concatSp (items.map (fun c => (extract_text_and_links c).1)) := by
  induction items with
  | nil => rfl
  | cons j rest ih => simp [extractList, concatSp, ih]

lemma extractList_snd (items : List Json) :
    (extractList items).2 = linksConcat (items.map (fun c => (extract_text_and_links c).2)) := by
  induction items with
  | nil => rfl
  | cons j rest ih => simp [extractList, linksConcat, ih]

lemma contentPart_eq (fields : List (String × Json)) :
    contentPart fields =
      (match fields.lookup "content" with
       | some (.arr items) => extractList items
       | _ => ([], [])) := by
  induction fields with
  | nil => rfl
  | cons kv rest ih =>
      obtain ⟨k, v⟩ := kv
      by_cases hk : k = "content"
      · subst hk
        have hlk : List.lookup "content" (("content", v) :: rest) = some v := by
          simp [List.lookup]
        rw [hlk]
        cases v <;> simp [contentPart]
      · have hbeq : ("content" == k) = false := by
          simp only [beq_eq_false_iff_ne, ne_eq]
          exact fun h => hk h.symm
        have hlk : List.lookup "content" ((k, v) :: rest) = List.lookup "content" rest := by
          simp [List.lookup, hbeq]
        rw [hlk]
        cases v <;> (simp only [contentPart]; rw [if_neg hk]; exact ih)

lemma concatSp_append (xs ys : List PyStr) :
    concatSp (xs ++ ys) = concatSp xs ++ concatSp ys := by
  induction xs with
  | nil => rfl
  | cons x rest ih => simp [concatSp, ih]

lemma concatSp_eq_joinSpace {xs : List PyStr} (h : xs ≠ []) :
    concatSp xs = joinSpace xs ++ [' '] := by
  induction xs with
  | nil => exact absurd rfl h
  | cons x rest ih =>
      rcases rest with _ | ⟨y, rest'⟩
      · simp [concatSp, joinSpace]
      · have h2 := ih (by simp)
        show x ++ ' ' :: concatSp (y :: rest') = (x ++ ' ' :: joinSpace (y :: rest')) ++ [' ']
        rw [h2]
        simp

lemma pyStrip_concatSp (xs : List PyStr) :
    pyStrip (concatSp xs) = pyStrip (joinSpace xs) := by
  rcases hx : xs with _ | ⟨x, rest⟩
  · rfl
  · rw [concatSp_eq_joinSpace (by simp), pyStrip_append_space]

lemma concatSp_ownText (fields : List (String × Json)) :
    concatSp (specOwnText fields) = textPart fields := by
  unfold specOwnText textPart
  rcases fields.lookup "text" with _ | v
  · rfl
  · cases v <;> rfl

/-- Claim C1 (amended): `extract_text_and_links` returns exactly the claim's
concatenation — children's recursively extracted texts and the node's own
`text`, joined by single spaces — except that the result is finally stripped
of leading and trailing whitespace, together with the claim's link list
(children's links, then the `inlineCard` URL, then the link-mark `href`s);
non-mapping, non-sequence inputs yield empty text and no links. -/
theorem C1_theorem (j : Json) :
    extract_text_and_links j = (claimTextStripped j, claimLinks j) := by
  cases j with
  | str s => rfl
  | null => rfl
  | arr items =>
      simp only [extract_text_and_links, claimTextStripped, claimText, claimLinks]
      rw [extractList_fst, extractList_snd, pyStrip_concatSp]
  | obj fields =>
      simp only [extract_text_and_links, claimTextStripped, claimText, claimLinks, specChildTexts]
      rw [contentPart_eq]
      rcases hc : fields.lookup "content" with _ | v
      · show (pyStrip ([] ++ textPart fields), [] ++ cardLinks fields ++ markLinks fields) = _
        rw [← concatSp_ownText, ← pyStrip_concatSp]
        simp [concatSp]
      · cases v with
        | arr items =>
            show (pyStrip ((extractList items).1 ++ textPart fields),
                  (extractList items).2 ++ cardLinks fields ++ markLinks fields) = _
            rw [extractList_fst, extractList_snd, ← concatSp_ownText, ← concatSp_append,
              pyStrip_concatSp]
        | str s =>
            show (pyStrip ([] ++ textPart fields), [] ++ cardLinks fields ++ markLinks fields) = _
            rw [← concatSp_ownText, ← pyStrip_concatSp]
            simp [concatSp]
        | null =>
            show (pyStrip ([] ++ textPart fields), [] ++ cardLinks fields ++ markLinks fields) = _
            rw [← concatSp_ownText, ← pyStrip_concatSp]
            simp [concatSp]
        | obj o =>
            show (pyStrip ([] ++ textPart fields), [] ++ cardLinks fields ++ markLinks fields) = _
            rw [← concatSp_ownText, ← pyStrip_concatSp]
            simp [concatSp]

/-- Claim C1, as stated, is false on the node `{"text": " "}`: the source
strips the accumulated text, returning `("", [])`, while the claim's
concatenation keeps the own-text `" "` verbatim. -/
theorem C1_counterexample :
    extract_text_and_links (Json.obj [("text", Json.str " ")])
      ≠ (claimText (Json.obj [("text", Json.str " ")]),
         claimLinks (Json.obj [("text", Json.str " ")])) := by
  decide

/-! ### Regrouping the `content` list (claim C9) -/

lemma extract_fst_stripped (j : Json) :
    pyStrip (extract_text_and_links j).1 = (extract_text_and_links j).1 := by
  cases j with
  | str s => rfl
  | null => rfl
  | arr items =>
      simp only [extract_text_and_links]
      exact pyStrip_idem _
  | obj fields =>
      simp only [extract_text_and_links]
      exact pyStrip_idem _

lemma extractList_append (xs ys : List Json) :
    extractList (xs ++ ys)
      = ((extractList xs).1 ++ (extractList ys).1, (extractList xs).2 ++ (extractList ys).2) := by
  induction xs with
  | nil => simp [extractList]
  | cons j rest ih => simp [extractList, ih]

/-- On a nonempty group whose members all have nonempty extracted text, the
accumulated text of the group is its own stripped form plus the trailing
space, and the stripped form is clean. -/
lemma extractList_clean_decomp :
    ∀ (g : List Json), g ≠ [] → (∀ c ∈ g, (extract_text_and_links c).1 ≠ []) →
      ∃ D, (extractList g).1 = D ++ [' '] ∧ Clean D := by
  intro g
  induction g with
  | nil => intro h; exact absurd rfl h
  | cons c g' ih =>
      intro _ hne
      have hc : Clean (extract_text_and_links c).1 :=
        ⟨extract_fst_stripped c, hne c (by simp)⟩
      rcases hg' : g' with _ | ⟨c2, g''⟩
      · refine ⟨(extract_text_and_links c).1, ?_, hc⟩
        simp [extractList]
      · obtain ⟨D', hD', hcD'⟩ := ih (by simp [hg']) (fun x hx => hne x (by simp [hg', List.mem_cons] at hx ⊢; tauto))
        rw [← hg']
        refine ⟨(extract_text_and_links c).1 ++ ' ' :: D', ?_, clean_append hc hcD'⟩
        have : extractList (c :: g') = ((extract_text_and_links c).1 ++ ' ' :: (extractList g').1,
            (extract_text_and_links c).2 ++ (extractList g').2) := by
          simp [extractList]
        rw [this]
        show (extract_text_and_links c).1 ++ ' ' :: (extractList g').1 = _
        rw [hD']
        simp

/-- Wrapping the groups of a partition as list nodes leaves the collected
links unchanged. -/
lemma extractList_regroup_links (groups : List (List Json)) :
    (extractList (groups.map Json.arr)).2 = (extractList (concatL groups)).2 := by
  induction groups with
  | nil => rfl
  | cons g rest ih =>
      show (extractList (Json.arr g :: rest.map Json.arr)).2 = (extractList (g ++ concatL rest)).2
      rw [extractList_append]
      have harr : extract_text_and_links (Json.arr g)
          = (pyStrip (extractList g).1, (extractList g).2) := by
        simp only [extract_text_and_links]
      calc (extractList (Json.arr g :: rest.map Json.arr)).2
          = (extract_text_and_links (Json.arr g)).2 ++ (extractList (rest.map Json.arr)).2 := by
            simp [extractList]
        _ = (extractList g).2 ++ (extractList (concatL rest)).2 := by rw [harr, ih]

/-- Wrapping the groups of a partition as list nodes also leaves the
accumulated text unchanged, provided the groups are nonempty and every
child's extracted text is nonempty. -/
lemma extractList_regroup_text (groups : List (List Json))
    (hg : ∀ g ∈ groups, g ≠ [])
    (hc : ∀ c ∈ concatL groups, (extract_text_and_links c).1 ≠ []) :
    (extractList (groups.map Json.arr)).1 = (extractList (concatL groups)).1 := by
  induction groups with
  | nil => rfl
  | cons g rest ih =>
      have hgne : g ≠ [] := hg g (by simp)
      have hcg : ∀ c ∈ g, (extract_text_and_links c).1 ≠ [] := by
        intro c hcmem
        refine hc c ?_
        show c ∈ g ++ concatL rest
        exact List.mem_append.mpr (Or.inl hcmem)
      obtain ⟨D, hD, hcD⟩ := extractList_clean_decomp g hgne hcg
      have harr : extract_text_and_links (Json.arr g)
          = (pyStrip (extractList g).1, (extractList g).2) := by
        simp only [extract_text_and_links]
      have hstrip : pyStrip (extractList g).1 = D := by
        rw [hD, pyStrip_append_space]
        exact hcD.1
      have ihr : (extractList (rest.map Json.arr)).1 = (extractList (concatL rest)).1 := by
        refine ih (fun x hx => hg x (by simp [hx])) ?_
        intro c hcmem
        refine hc c ?_
        show c ∈ g ++ concatL rest
        exact List.mem_append.mpr (Or.inr hcmem)
      show (extractList (Json.arr g :: rest.map Json.arr)).1 = (extractList (g ++ concatL rest)).1
      rw [extractList_append]
      calc (extractList (Json.arr g :: rest.map Json.arr)).1
          = (extract_text_and_links (Json.arr g)).1 ++ ' ' :: (extractList (rest.map Json.arr)).1 := by
            simp [extractList]
        _ = D ++ ' ' :: (extractList (concatL rest)).1 := by rw [harr, hstrip, ihr]
        _ = (D ++ [' ']) ++ (extractList (concatL rest)).1 := by simp
        _ = (extractList g).1 ++ (extractList (concatL rest)).1 := by rw [hD]

lemma textPart_congr {fields fields' : List (String × Json)}
    (h : fields'.lookup "text" = fields.lookup "text") : textPart fields' = textPart fields := by
  unfold textPart
  rw [h]

lemma cardLinks_congr {fields fields' : List (String × Json)}
    (ht : fields'.lookup "type" = fields.lookup "type")
    (ha : fields'.lookup "attrs" = fields.lookup "attrs") :
    cardLinks fields' = cardLinks fields := by
  unfold cardLinks
  rw [ht, ha]

lemma markLinks_congr {fields fields' : List (String × Json)}
    (h : fields'.lookup "marks" = fields.lookup "marks") : markLinks fields' = markLinks fields := by
  unfold markLinks
  rw [h]

/-- Claim C9 (amended): regrouping a node's `content` list into nested list
nodes, preserving document order, never changes the collected links; it also
leaves the extracted text unchanged provided the groups are nonempty and
every original child has nonempty extracted text (an empty child text makes
the source emit a double space that regrouping collapses). -/
theorem C9_theorem (fields fields' : List (String × Json)) (items : List Json)
    (groups : List (List Json))
    (hc : fields.lookup "content" = some (Json.arr items))
    (hc' : fields'.lookup "content" = some (Json.arr (groups.map Json.arr)))
    (hjoin : concatL groups = items)
    (hrest : ∀ k, k ≠ "content" → fields'.lookup k = fields.lookup k) :
    (extract_text_and_links (Json.obj fields')).2 = (extract_text_and_links (Json.obj fields)).2
    ∧ ((∀ g ∈ groups, g ≠ []) → (∀ c ∈ items, (extract_text_and_links c).1 ≠ []) →
        extract_text_and_links (Json.obj fields') = extract_text_and_links (Json.obj fields)) := by
  have htext := @textPart_congr fields fields' (hrest "text" (by decide))
  have hcard := @cardLinks_congr fields fields'
    (hrest "type" (by decide)) (hrest "attrs" (by decide))
  have hmark := @markLinks_congr fields fields' (hrest "marks" (by decide))
  have hcp : contentPart fields = extractList items := by
    rw [contentPart_eq, hc]
  have hcp' : contentPart fields' = extractList (groups.map Json.arr) := by
    rw [contentPart_eq, hc']
  constructor
  · simp only [extract_text_and_links]
    rw [hcp, hcp', hcard, hmark, extractList_regroup_links, hjoin]
  · intro hg hne
    simp only [extract_text_and_links]
    rw [hcp, hcp', hcard, hmark, htext, extractList_regroup_links,
      extractList_regroup_text groups hg (by rw [hjoin]; exact hne), hjoin]

/-- Claim C9, as stated, is false: regrouping children `[a, b, c]` into
`[[a, b], c]`, where `b` has empty extracted text, collapses the double
space the source produces around `b`, changing `"x  y"` into `"x y"`. -/
theorem C9_counterexample :
    extract_text_and_links
        (Json.obj [("content", Json.arr
          [Json.arr [Json.obj [("text", Json.str "x")], Json.obj []],
           Json.obj [("text", Json.str "y")]])])
      ≠ extract_text_and_links
          (Json.obj [("content", Json.arr
            [Json.obj [("text", Json.str "x")], Json.obj [],
             Json.obj [("text", Json.str "y")]])]) := by
  decide

/-- Witness for `C9_theorem`: a concrete order-preserving regrouping of three
children with nonempty texts, where the regrouped node extracts identically. -/
theorem C9_witness :
    extract_text_and_links
        (Json.obj [("content", Json.arr
          [Json.arr [Json.obj [("text", Json.str "x")], Json.obj [("text", Json.str "y")]],
           Json.arr [Json.obj [("text", Json.str "z")]]])])
      = extract_text_and_links
          (Json.obj [("content", Json.arr
            [Json.obj [("text", Json.str "x")], Json.obj [("text", Json.str "y")],
             Json.obj [("text", Json.str "z")]])]) :=
  (C9_theorem
    [("content", Json.arr
      [Json.obj [("text", Json.str "x")], Json.obj [("text", Json.str "y")],
       Json.obj [("text", Json.str "z")]])]
    [("content", Json.arr
      [Json.arr [Json.obj [("text", Json.str "x")], Json.obj [("text", Json.str "y")]],
       Json.arr [Json.obj [("text", Json.str "z")]]])]
    [Json.obj [("text", Json.str "x")], Json.obj [("text", Json.str "y")],
     Json.obj [("text", Json.str "z")]]
    [[Json.obj [("text", Json.str "x")], Json.obj [("text", Json.str "y")]],
     [Json.obj [("text", Json.str "z")]]]
    rfl rfl rfl
    (by
      intro k hk
      have hbeq : (k == "content") = false := by
        simp only [beq_eq_false_iff_ne, ne_eq]
        exact hk
      simp [List.lookup, hbeq])).2
    (by
      intro g hgmem
      simp only [List.mem_cons, List.mem_singleton] at hgmem
      rcases hgmem with h | h | h
      · simp [h]
      · simp [h]
      · simp at h)
    (by
      intro c hcmem
      simp only [List.mem_cons, List.mem_singleton] at hcmem
      rcases hcmem with h | h | h | h <;> first | (subst h; decide) | simp at h)

/-! ### The domain filter (claim C2) -/

lemma leadsWith_refl_append (p l : List Char) : leadsWith p (p ++ l) = true := by
  induction p with
  | nil => rfl
  | cons c t ih => simp [leadsWith, ih]

lemma containsSeq_append_mid (pat a b : List Char) :
    containsSeq pat (a ++ pat ++ b) = true := by
  induction a with
  | nil =>
      rcases hp : pat with _ | ⟨c, t⟩
      · cases b <;> simp [containsSeq, leadsWith]
      · show containsSeq (c :: t) ((c :: t) ++ b) = true
        show (leadsWith (c :: t) ((c :: t) ++ b) || _) = true
        rw [leadsWith_refl_append]
        rfl
  | cons x a' ih =>
      show (leadsWith pat (x :: (a' ++ pat ++ b)) || containsSeq pat (a' ++ pat ++ b)) = true
      rw [ih]
      exact Bool.or_true _

lemma hardTail_post {pre r2 : List Char} {u : String} {rest : List Char}
    (h : Confluence.hardTail pre r2 = some (u, rest)) :
    ∃ run, u = String.mk (pre ++ ".google.com".data ++ run) := by
  unfold Confluence.hardTail at h
  rcases hd : dropLit ".google.com".data r2 with _ | r3
  · rw [hd] at h
    exact Option.noConfusion h
  · rw [hd] at h
    have h' : (if (r3.takeWhile (fun c => !pyIsSpace c)).isEmpty = true
        then (none : Option (String × List Char))
        else some (String.mk (pre ++ ".google.com".data ++ r3.takeWhile (fun c => !pyIsSpace c)),
          r3.drop (r3.takeWhile (fun c => !pyIsSpace c)).length)) = some (u, rest) := h
    by_cases hrun : (r3.takeWhile (fun c => !pyIsSpace c)).isEmpty = true
    · rw [if_pos hrun] at h'
      exact Option.noConfusion h'
    · rw [if_neg hrun] at h'
      refine ⟨r3.takeWhile (fun c => !pyIsSpace c), ?_⟩
      cases h'
      rfl

lemma matchHardAt_marker {l : List Char} {u : String} {rest : List Char}
    (h : Confluence.matchHardAt l = some (u, rest)) : hasMarker u = true := by
  have domCase : ∀ (pre r : List Char), Confluence.hardDom pre r = some (u, rest) →
      hasMarker u = true := by
    intro pre r hdom
    unfold Confluence.hardDom at hdom
    rcases h1 : dropLit "drive".data r with _ | r2
    · rw [h1] at hdom
      rcases h2 : dropLit "docs".data r with _ | r2'
      · rw [h2] at hdom
        exact absurd hdom (by simp)
      · rw [h2] at hdom
        obtain ⟨run, hu⟩ := hardTail_post hdom
        have hdata : u.data = pre ++ "docs.google.com".data ++ run := by
          rw [hu]
          show (pre ++ "docs".data) ++ ".google.com".data ++ run = _
          have : "docs".data ++ ".google.com".data = "docs.google.com".data := by decide
          rw [← this]
          simp
        unfold hasMarker
        rw [hdata, containsSeq_append_mid]
        simp
    · rw [h1] at hdom
      obtain ⟨run, hu⟩ := hardTail_post hdom
      have hdata : u.data = pre ++ "drive.google.com".data ++ run := by
        rw [hu]
        show (pre ++ "drive".data) ++ ".google.com".data ++ run = _
        have : "drive".data ++ ".google.com".data = "drive.google.com".data := by decide
        rw [← this]
        simp
      unfold hasMarker
      rw [hdata, containsSeq_append_mid]
      rfl
  unfold Confluence.matchHardAt at h
  rcases h1 : dropLit "https://".data l with _ | r
  · rw [h1] at h
    rcases h2 : dropLit "http://".data l with _ | r'
    · rw [h2] at h
      exact absurd h (by simp)
    · rw [h2] at h
      exact domCase _ _ h
  · rw [h1] at h
    exact domCase _ _ h

lemma scanHard_marker : ∀ (fuel : Nat) (l : List Char) (u : String),
    u ∈ Confluence.scanHard fuel l → hasMarker u = true := by
  intro fuel
  induction fuel with
  | zero => intro l u hu; simp [Confluence.scanHard] at hu
  | succ f ih =>
      intro l u hu
      rcases l with _ | ⟨c, rest⟩
      · simp [Confluence.scanHard] at hu
      · rcases hm : Confluence.matchHardAt (c :: rest) with _ | ⟨v, rest'⟩
        · rw [Confluence.scanHard, hm] at hu
          exact ih rest u hu
        · rw [Confluence.scanHard, hm] at hu
          rcases List.mem_cons.mp hu with h | h
          · subst h
            exact matchHardAt_marker hm
          · exact ih rest' u h

lemma captureTail_marker {l : List Char} {u : String} {rest : List Char}
    (h : Confluence.captureTail l = some (u, rest)) : hasMarker u = true := by
  unfold Confluence.captureTail at h
  by_cases hct : containsSeq "drive.google.com".data (l.takeWhile (fun c => !(c == '"'))) = true
  · rw [if_pos hct] at h
    split at h
    · cases h
      show (containsSeq "drive.google.com".data (l.takeWhile (fun c => !(c == '"')))
          || containsSeq "docs.google.com".data (l.takeWhile (fun c => !(c == '"')))) = true
      rw [hct]
      rfl
    · exact Option.noConfusion h
  · rw [if_neg hct] at h
    exact Option.noConfusion h

lemma tryDrops_post {P : String → Prop}
    {k : List Char → Option (String × List Char)}
    (hk : ∀ l' u rest, k l' = some (u, rest) → P u) :
    ∀ (n : Nat) (l : List Char) (u : String) (rest : List Char),
      Confluence.tryDrops k l n = some (u, rest) → P u := by
  intro n
  induction n with
  | zero => intro l u rest h; exact hk l u rest h
  | succ m ih =>
      intro l u rest h
      unfold Confluence.tryDrops at h
      rcases hm : k (l.drop (m + 1)) with _ | ⟨v, r⟩
      · rw [hm] at h
        exact ih l u rest h
      · rw [hm] at h
        cases h
        exact hk _ _ _ hm

lemma smartAfterName_marker {l : List Char} {u : String} {rest : List Char}
    (h : Confluence.smartAfterName l = some (u, rest)) : hasMarker u = true := by
  unfold Confluence.smartAfterName at h
  rcases h1 : dropLit "data-card-url=\"".data l with _ | r
  · rw [h1] at h
    exact absurd h (by simp)
  · rw [h1] at h
    exact captureTail_marker h

lemma smartAfterOpen_marker {l : List Char} {u : String} {rest : List Char}
    (h : Confluence.smartAfterOpen l = some (u, rest)) : hasMarker u = true := by
  unfold Confluence.smartAfterOpen at h
  rcases h1 : dropLit "ac:name=\"inline-card\"".data l with _ | r
  · rw [h1] at h
    exact absurd h (by simp)
  · rw [h1] at h
    exact tryDrops_post (fun l' u' rest' hl => smartAfterName_marker hl) _ _ _ _ h

lemma matchSmartAt_marker {l : List Char} {u : String} {rest : List Char}
    (h : Confluence.matchSmartAt l = some (u, rest)) : hasMarker u = true := by
  unfold Confluence.matchSmartAt at h
  rcases h1 : dropLit "<ac:structured-macro".data l with _ | r
  · rw [h1] at h
    exact absurd h (by simp)
  · rw [h1] at h
    exact tryDrops_post (fun l' u' rest' hl => smartAfterOpen_marker hl) _ _ _ _ h

lemma scanSmart_marker : ∀ (fuel : Nat) (l : List Char) (u : String),
    u ∈ Confluence.scanSmart fuel l → hasMarker u = true := by
  intro fuel
  induction fuel with
  | zero => intro l u hu; simp [Confluence.scanSmart] at hu
  | succ f ih =>
      intro l u hu
      rcases l with _ | ⟨c, rest⟩
      · simp [Confluence.scanSmart] at hu
      · rcases hm : Confluence.matchSmartAt (c :: rest) with _ | ⟨v, rest'⟩
        · rw [Confluence.scanSmart, hm] at hu
          exact ih rest u hu
        · rw [Confluence.scanSmart, hm] at hu
          rcases List.mem_cons.mp hu with h | h
          · subst h
            exact matchSmartAt_marker hm
          · exact ih rest' u h

/-- Claim C2 (amended): neither classifier ever returns a URL that lacks both
domain markers as substrings of the whole URL — the filter is a substring
test on the full URL, not on its host. -/
theorem C2_theorem :
    (∀ (x : Json) (u : String), u ∈ Jira.extract_google_drive_links x → hasMarker u = true)
    ∧ (∀ (s : String) (p : String × String),
        p ∈ Confluence.extract_google_drive_links s → hasMarker p.1 = true) := by
  constructor
  · intro x u hu
    simp only [Jira.extract_google_drive_links] at hu
    rcases List.mem_append.mp hu with h | h
    · exact (List.mem_filter.mp h).2
    · exact (List.mem_filter.mp h).2
  · intro s p hp
    simp only [Confluence.extract_google_drive_links] at hp
    rcases List.mem_append.mp hp with h | h
    · obtain ⟨u, hu, hpu⟩ := List.mem_map.mp h
      rw [← hpu]
      exact scanHard_marker _ _ u hu
    · obtain ⟨u, hu, hpu⟩ := List.mem_map.mp h
      rw [← hpu]
      exact scanSmart_marker _ _ u hu

/-- Claim C2, as stated, is false: the filter is a substring test on the
whole URL, so a URL whose query string (not host) contains a marker is
returned, although its host `evil.example` contains neither marker. -/
theorem C2_counterexample :
    "https://evil.example/a?drive.google.com"
        ∈ Jira.extract_google_drive_links (Json.str "https://evil.example/a?drive.google.com")
      ∧ hostHasMarker "https://evil.example/a?drive.google.com" = false := by
  constructor
  · decide
  · decide

/-- Witness for `C2_theorem`: a URL actually returned by the issue-tracker
classifier carries a domain marker. -/
theorem C2_witness :
    "https://drive.google.com/file/d/1" ∈ Jira.extract_google_drive_links
        (Json.str "see https://drive.google.com/file/d/1 here")
      ∧ hasMarker "https://drive.google.com/file/d/1" = true :=
  ⟨by decide,
   C2_theorem.1 (Json.str "see https://drive.google.com/file/d/1 here")
     "https://drive.google.com/file/d/1" (by decide)⟩

/-! ### Pagination (claims C3 and C4) -/

/-- Claim C3 (amended): when the fetch of page 2 fails after retries, the
wiki cursor-style loop swallows the failure and returns exactly page 1's
records, but the issue-tracker offset-style loop has no `try`/`except` and
propagates the failure to its caller instead of returning page 1. -/
theorem C3_theorem :
    (∀ (R : Type) (f : String → Except Unit (ApiPage R)) (base u0 n1 : String)
       (r1 : List R) (fuel : Nat),
       f u0 = Except.ok ⟨r1, some n1⟩ → f (base ++ n1) = Except.error () → r1 ≠ [] →
       getAllCursor f base (fuel + 2) u0 = r1)
    ∧ (∀ (I : Type) (g : Nat → Except Unit (List I)) (b1 : List I) (fuel : Nat),
       g 0 = Except.ok b1 → b1.length = 100 → g 100 = Except.error () →
       getAllIssues g (fuel + 2) = Except.error ()) := by
  constructor
  · intro R f base u0 n1 r1 fuel h1 h2 hne
    rcases r1 with _ | ⟨a, t⟩
    · exact absurd rfl hne
    · show cursorLoop f base (fuel + 1 + 1) (some u0) [] = a :: t
      simp only [cursorLoop, h1, h2, List.isEmpty_cons]
      simp
  · intro I g b1 fuel h0 hlen h100
    show offsetLoop g (fuel + 1 + 1) 0 [] = Except.error ()
    simp only [offsetLoop, h0, hlen, h100]
    norm_num

/-- Claim C3, as stated, is false for the issue-tracker loop: with page 1
full (100 records) and page 2 failing after retries, `get_all_issues` does
not return page 1's records — the failure propagates to its caller. -/
theorem C3_counterexample :
    getAllIssues (fun s => if s = 0 then Except.ok (List.replicate 100 "i")
        else Except.error ()) 7 = Except.error ()
    ∧ ∀ r, getAllIssues (fun s => if s = 0 then Except.ok (List.replicate 100 "i")
        else Except.error ()) 7 ≠ Except.ok r := by
  refine ⟨rfl, ?_⟩
  intro r h
  rw [show getAllIssues (fun s => if s = 0 then Except.ok (List.replicate 100 "i")
      else Except.error ()) 7 = Except.error () from rfl] at h
  exact Except.noConfusion h

/-- Witness for `C3_theorem`: concrete three-page sequences whose second page
fails. -/
theorem C3_witness :
    getAllCursor (fun u => if u = "u0" then Except.ok ⟨["r1"], some "n1"⟩
        else Except.error ()) "B" 5 "u0" = ["r1"]
    ∧ getAllIssues (fun s => if s = 0 then Except.ok (List.replicate 100 0)
        else Except.error ()) 5 = Except.error () :=
  ⟨C3_theorem.1 String (fun u => if u = "u0" then Except.ok ⟨["r1"], some "n1"⟩
      else Except.error ()) "B" "u0" "n1" ["r1"] 3 rfl rfl (by simp),
   C3_theorem.2 Nat (fun s => if s = 0 then Except.ok (List.replicate 100 0)
      else Except.error ()) (List.replicate 100 0) 3 rfl (by simp) rfl⟩

/-- Claim C4, as stated, is false: when page 2 comes back with an empty
result list, the loop returns the empty list, discarding page 1's records
rather than returning them. -/
theorem C4_counterexample :
    getAllCursor (fun u => if u = "u0" then Except.ok ⟨["r1"], some "n1"⟩
        else if u = "Bn1" then Except.ok ⟨[], some "n2"⟩ else Except.error ()) "B" 5 "u0"
      = ([] : List String)
    ∧ ([] : List String) ≠ ["r1"] := by
  constructor
  · rfl
  · decide

/-- Claim C4 (amended): an empty result page makes the wiki paginator end
pagination and return the empty list — discarding everything accumulated
from earlier non-empty pages, not returning it. -/
theorem C4_theorem :
    (∀ (R : Type) (f : String → Except Unit (ApiPage R)) (base u0 n1 : String)
       (r1 : List R) (nxt : Option String) (fuel : Nat),
       f u0 = Except.ok ⟨r1, some n1⟩ → f (base ++ n1) = Except.ok ⟨[], nxt⟩ →
       getAllCursor f base (fuel + 2) u0 = [])
    ∧ (∀ (R : Type) (f : String → Except Unit (ApiPage R)) (base u0 : String)
       (nxt : Option String) (fuel : Nat),
       f u0 = Except.ok ⟨[], nxt⟩ → getAllCursor f base (fuel + 1) u0 = []) := by
  constructor
  · intro R f base u0 n1 r1 nxt fuel h1 h2
    rcases r1 with _ | ⟨a, t⟩
    · show cursorLoop f base (fuel + 1 + 1) (some u0) [] = []
      simp only [cursorLoop, h1]
      simp
    · show cursorLoop f base (fuel + 1 + 1) (some u0) [] = []
      simp only [cursorLoop, h1, h2, List.isEmpty_cons]
      simp
  · intro R f base u0 nxt fuel h1
    show cursorLoop f base (fuel + 1) (some u0) [] = []
    simp only [cursorLoop, h1]
    simp

/-- Witness for `C4_theorem`: the concrete two-page sequence of
`C4_counterexample`, and an empty first page. -/
theorem C4_witness :
    getAllCursor (fun u => if u = "a0" then Except.ok ⟨["x"], some "m1"⟩
        else if u = "Cm1" then Except.ok ⟨[], none⟩ else Except.error ()) "C" 6 "a0"
      = ([] : List String)
    ∧ getAllCursor (fun _ => Except.ok (⟨[], none⟩ : ApiPage String)) "C" 4 "a0"
      = ([] : List String) :=
  ⟨C4_theorem.1 String (fun u => if u = "a0" then Except.ok ⟨["x"], some "m1"⟩
      else if u = "Cm1" then Except.ok ⟨[], none⟩ else Except.error ()) "C" "a0" "m1"
      ["x"] none 4 rfl rfl,
   C4_theorem.2 String (fun _ => Except.ok ⟨[], none⟩) "C" "a0" none 3 rfl⟩

/-! ### The retry policy (claim C6) -/

lemma retryLoop_attempts_le {E A : Type} (f : Nat → Except E A) :
    ∀ (r attempt : Nat), (retryLoop f attempt r).attempts ≤ r + 1 := by
  intro r
  induction r with
  | zero =>
      intro attempt
      rw [retryLoop]
      cases hf : f attempt <;> simp
  | succ m ih =>
      intro attempt
      rw [retryLoop, ]
      cases hf : f attempt with
      | ok a => simp
      | error e =>
          show (retryLoop f (attempt + 1) m).attempts + 1 ≤ m + 1 + 1
          have h2 := ih (attempt + 1)
          omega

/-- Claim C6 (confirmed; the retry driver itself is the external `tenacity`
library, modelled from the spec): with every attempt failing, the fetcher
makes exactly 5 attempts, waits 2, 4, 8 and then 10 time-units between them,
and the failure propagates; no run ever makes more than 5 attempts. -/
theorem C6_theorem {E A : Type} (e : E) (f : Nat → Except E A)
    (hf : ∀ n, f n = Except.error e) :
    (runWithRetry f).result = Except.error e ∧ (runWithRetry f).waits = [2, 4, 8, 10]
      ∧ (runWithRetry f).attempts = 5
      ∧ ∀ (g : Nat → Except E A), (runWithRetry g).attempts ≤ 5 := by
  refine ⟨?_, ?_, ?_, ?_⟩
  · simp [runWithRetry, retryLoop, hf]
  · simp [runWithRetry, retryLoop, hf, retryWait]
  · simp [runWithRetry, retryLoop, hf]
  · intro g
    simpa [runWithRetry] using retryLoop_attempts_le g 4 1

/-- Witness for `C6_theorem`: the concrete always-rate-limited request. -/
theorem C6_witness :
    (runWithRetry (fun _ => (Except.error () : Except Unit Unit))).waits = [2, 4, 8, 10]
      ∧ (runWithRetry (fun _ => (Except.error () : Except Unit Unit))).attempts = 5 :=
  ⟨(C6_theorem () (fun _ => Except.error ()) (fun _ => rfl)).2.1,
   (C6_theorem () (fun _ => Except.error ()) (fun _ => rfl)).2.2.1⟩

/-! ### Per-item error handling (claims C7 and C8) -/

/-- Claim C7 (amended): the wiki loop catches a per-page failure, appends the
`"ERROR"` sentinel row in that page's position and continues with the later
pages; the issue-tracker loop has no such handler — the first per-issue
failure propagates, aborting the whole traversal with no sentinel row. -/
theorem C7_theorem :
    (∀ (sk : String) (h : String → Except String (List (List String)))
       (l1 l2 : List String) (t e : String), h t = Except.error e →
       processPagesLoop sk h (l1 ++ t :: l2)
         = processPagesLoop sk h l1 ++ [[sk, t, "ERROR", "N/A", e, "N/A"]]
           ++ processPagesLoop sk h l2)
    ∧ (∀ (h : String → Except String (List (List String))) (l1 l2 : List String) (t e : String),
       (∀ q ∈ l1, ∃ r, h q = Except.ok r) → h t = Except.error e →
       processIssuesLoop h (l1 ++ t :: l2) = Except.error e) := by
  constructor
  · intro sk h l1 l2 t e he
    induction l1 with
    | nil => simp [processPagesLoop, he]
    | cons a l1' ih => simp [processPagesLoop, ih]
  · intro h l1 l2 t e hpre he
    induction l1 with
    | nil => simp [processIssuesLoop, he]
    | cons a l1' ih =>
        obtain ⟨r, hr⟩ := hpre a (by simp)
        have ih' := ih (fun q hq => hpre q (by simp [hq]))
        simp [processIssuesLoop, hr, ih']

/-- Claim C7, as stated, is false for the issue tracker: a failing first
issue aborts the loop with the raised error; no sentinel row is produced and
the remaining issue is never processed. -/
theorem C7_counterexample :
    processIssuesLoop (fun k => if k = "BAD" then Except.error "boom" else Except.ok [])
        ["BAD", "GOOD"]
      = Except.error "boom"
    ∧ ∀ rows, processIssuesLoop
        (fun k => if k = "BAD" then Except.error "boom" else Except.ok [])
        ["BAD", "GOOD"] ≠ Except.ok rows := by
  refine ⟨rfl, ?_⟩
  intro rows h
  rw [show processIssuesLoop (fun k => if k = "BAD" then Except.error "boom" else Except.ok [])
      ["BAD", "GOOD"] = Except.error "boom" from rfl] at h
  exact Except.noConfusion h

/-- Witness for `C7_theorem`: a concrete run of each loop around one failing
item. -/
theorem C7_witness :
    processPagesLoop "SK" (fun k => if k = "BAD" then Except.error "boom" else Except.ok [["r"]])
        (["GOOD"] ++ "BAD" :: ["G2"])
      = processPagesLoop "SK"
          (fun k => if k = "BAD" then Except.error "boom" else Except.ok [["r"]]) ["GOOD"]
        ++ [["SK", "BAD", "ERROR", "N/A", "boom", "N/A"]]
        ++ processPagesLoop "SK"
          (fun k => if k = "BAD" then Except.error "boom" else Except.ok [["r"]]) ["G2"]
    ∧ processIssuesLoop (fun k => if k = "BAD" then Except.error "boom" else Except.ok [["r"]])
        (["GOOD"] ++ "BAD" :: ["G2"]) = Except.error "boom" :=
  ⟨C7_theorem.1 "SK" (fun k => if k = "BAD" then Except.error "boom" else Except.ok [["r"]])
      ["GOOD"] ["G2"] "BAD" "boom" rfl,
   C7_theorem.2 (fun k => if k = "BAD" then Except.error "boom" else Except.ok [["r"]])
      ["GOOD"] ["G2"] "BAD" "boom"
      (by
        intro q hq
        simp only [List.mem_singleton] at hq
        subst hq
        exact ⟨[["r"]], rfl⟩)
      rfl⟩

/-- Claim C8 (confirmed): the scenario-C issue (empty summary, no
description, no comments, no custom fields, no environment) with the single
remote link `https://drive.google.com/drive/folders/xyz` yields exactly one
row, labelled `"Remote Link"`; remote links are tested with the plain-text
pattern only, and a non-matching remote link yields no row at all. -/
theorem C8_theorem :
    processIssue "PR" ⟨"ISS-1", [("summary", Json.str "")]⟩
        ["https://drive.google.com/drive/folders/xyz"]
      = [["PR", "ISS-1", "", "https://drive.google.com/drive/folders/xyz", "Remote Link"]]
    ∧ ∀ (link : String), Jira.remoteLinkMatches link = false →
        processIssue "PR" ⟨"ISS-1", [("summary", Json.str "")]⟩ [link] = [] := by
  constructor
  · decide
  · intro link hl
    show (if Jira.remoteLinkMatches link
        then [["PR", "ISS-1", "", link, "Remote Link"]] else [])
        ++ ([] : List (List String)) = []
    rw [hl]
    rfl

/-- Witness for `C8_theorem`: a remote link outside the hosting service
produces no row. -/
theorem C8_witness :
    Jira.remoteLinkMatches "https://example.com/file" = false
      ∧ processIssue "PR" ⟨"ISS-1", [("summary", Json.str "")]⟩ ["https://example.com/file"] = [] :=
  ⟨by decide, C8_theorem.2 "https://example.com/file" (by decide)⟩

/-! ### The wiki classifier's two patterns (claims C5 and C10) -/

/-- Claim C5, as stated, is false: the smart-link pattern requires
`drive.google.com` in the `data-card-url` attribute, so the scenario-B body
(whose attribute holds a `docs.google.com` URL) does not yield
`(url, "Smart Link")`. -/
theorem C5_counterexample :
    Confluence.extract_google_drive_links
        "<ac:structured-macro ac:name=\"inline-card\" data-card-url=\"https://docs.google.com/document/d/abc\"/>"
      ≠ [("https://docs.google.com/document/d/abc", "Smart Link")] := by
  decide

/-- Claim C5 (amended): the markup-embed scan accepts a `data-card-url`
containing the `drive.google.com` marker only.  The scenario-B `docs` body
yields a single match, labelled `"Hardcoded"`, whose URL over-captures
through the closing quote and the trailing markup; the same body with a
`drive.google.com` URL yields the `"Smart Link"` match with the exact
attribute value (besides the over-capturing `"Hardcoded"` match). -/
theorem C5_theorem :
    Confluence.extract_google_drive_links
        "<ac:structured-macro ac:name=\"inline-card\" data-card-url=\"https://docs.google.com/document/d/abc\"/>"
      = [("https://docs.google.com/document/d/abc\"/>", "Hardcoded")]
    ∧ Confluence.extract_google_drive_links
        "<ac:structured-macro ac:name=\"inline-card\" data-card-url=\"https://drive.google.com/document/d/abc\"/>"
      = [("https://drive.google.com/document/d/abc\"/>", "Hardcoded"),
         ("https://drive.google.com/document/d/abc", "Smart Link")] := by
  constructor
  · decide
  · decide

lemma get_append_left_mem {α : Type} :
    ∀ (A B : List α) (i : Nat) (hi : i < A.length) (h : i < (A ++ B).length),
      (A ++ B).get ⟨i, h⟩ ∈ A := by
  intro A
  induction A with
  | nil => intro B i hi h; simp at hi
  | cons a A' ih =>
      intro B i hi h
      cases i with
      | zero => simp [List.get]
      | succ i' =>
          have hi' : i' < A'.length := by simpa using hi
          have h' : i' < (A' ++ B).length := by
            simp only [List.length_append, List.length_cons] at h ⊢
            omega
          exact List.mem_cons_of_mem a (ih B i' hi' h')

lemma get_append_right_mem {α : Type} :
    ∀ (A B : List α) (i : Nat) (hi : A.length ≤ i) (h : i < (A ++ B).length),
      (A ++ B).get ⟨i, h⟩ ∈ B := by
  intro A
  induction A with
  | nil =>
      intro B i hi h
      exact List.get_mem B i (by simpa using h)
  | cons a A' ih =>
      intro B i hi h
      cases i with
      | zero => simp at hi
      | succ i' =>
          have hi' : A'.length ≤ i' := by simpa using hi
          have h' : i' < (A' ++ B).length := by
            simp only [List.length_append, List.length_cons] at h ⊢
            omega
          exact ih B i' hi' h'

lemma label_order (A B : List (String × String))
    (hA : ∀ x ∈ A, x.2 = "Hardcoded") (hB : ∀ x ∈ B, x.2 = "Smart Link") :
    ∀ (i j : Nat) (hi : i < (A ++ B).length) (hj : j < (A ++ B).length), i ≤ j →
      ((A ++ B).get ⟨i, hi⟩).2 = "Smart Link" → ((A ++ B).get ⟨j, hj⟩).2 = "Smart Link" := by
  intro i j hi hj hij hsmart
  by_cases hcase : i < A.length
  · have hmem := get_append_left_mem A B i hcase hi
    have := hA _ hmem
    rw [this] at hsmart
    exact absurd hsmart (by decide)
  · have hj2 : A.length ≤ j := by omega
    exact hB _ (get_append_right_mem A B j hj2 hj)

/-- Claim C10 (implicit, confirmed): the wiki classifier lists every
`"Hardcoded"` match before every `"Smart Link"` match regardless of document
positions, and a single inline-card macro with a whitespace-free
`drive.google.com` `data-card-url` produces both: a `"Hardcoded"` match that
over-captures through the closing quote and the trailing markup, and a
`"Smart Link"` match with the exact attribute value. -/
theorem C10_theorem :
    (∀ (content : String) (i j : Nat)
       (hi : i < (Confluence.extract_google_drive_links content).length)
       (hj : j < (Confluence.extract_google_drive_links content).length), i ≤ j →
       ((Confluence.extract_google_drive_links content).get ⟨i, hi⟩).2 = "Smart Link" →
       ((Confluence.extract_google_drive_links content).get ⟨j, hj⟩).2 = "Smart Link")
    ∧ Confluence.extract_google_drive_links
        "<ac:structured-macro ac:name=\"inline-card\" data-card-url=\"https://drive.google.com/file/d/xyz9\"/>"
      = [("https://drive.google.com/file/d/xyz9\"/>", "Hardcoded"),
         ("https://drive.google.com/file/d/xyz9", "Smart Link")] := by
  constructor
  · intro content i j hi hj hij hsmart
    have hA : ∀ x ∈ (Confluence.findHardLinks content).map (fun l => (l, "Hardcoded")),
        x.2 = "Hardcoded" := by
      intro x hx
      obtain ⟨u, _, hux⟩ := List.mem_map.mp hx
      rw [← hux]
    have hB : ∀ x ∈ (Confluence.findSmartLinks content).map (fun l => (l, "Smart Link")),
        x.2 = "Smart Link" := by
      intro x hx
      obtain ⟨u, _, hux⟩ := List.mem_map.mp hx
      rw [← hux]
    exact label_order _ _ hA hB i j hi hj hij hsmart
  · decide

/-- Witness for `C10_theorem`: in the two-match output of the drive-URL
macro body, the later match is the `"Smart Link"` one. -/
theorem C10_witness :
    ((Confluence.extract_google_drive_links
        "<ac:structured-macro ac:name=\"inline-card\" data-card-url=\"https://drive.google.com/file/d/xyz9\"/>").get
      ⟨1, by decide⟩).2 = "Smart Link" :=
  C10_theorem.1
    "<ac:structured-macro ac:name=\"inline-card\" data-card-url=\"https://drive.google.com/file/d/xyz9\"/>"
    1 1 (by decide) (by decide) (le_refl 1) (by decide)
